import Mathlib

/-!
Shallow embedding of the persistent store of the AI Tutor application
(source module: database.py, class Database, backed by SQLite).

Tables are embedded as Lean lists of row structures kept in insertion
order, which is how SQLite returns rows of these tables when no ORDER BY
clause is given (plain table scan in rowid order; every table here has an
INTEGER PRIMARY KEY AUTOINCREMENT id, so rowid order is insertion order).
AUTOINCREMENT counters are carried explicitly and start at 1, as in
SQLite.  Timestamps (CURRENT_TIMESTAMP / datetime.now()) are modelled as
a Nat clock value passed explicitly to each operation that reads the
clock; comparisons between timestamps in the source are the strict or
non-strict orders used there.  The random token produced by
secrets.token_urlsafe(32) in create_invite_link is passed in as an
explicit argument, since it is drawn from an external entropy source.
Scores (a REAL column) are modelled at integer granularity as Int, since
no verified property depends on fractional values.

Only the tables the verified properties touch are embedded: users,
invite_links, quizzes, questions and quiz_attempts.  The
question_responses and progress_reports tables are untouched by every
property below and are omitted.

A faithfulness note that matters for the foreign-key property: the
schema in initialize_db declares FOREIGN KEY clauses, but the connection
created in get_connection never executes PRAGMA foreign_keys = ON, and
SQLite leaves foreign-key enforcement OFF by default.  Consequently an
INSERT that references a missing parent row succeeds, and the embedding
of add_question below reproduces that: it inserts unconditionally.
-/

/-- Row of the users table (database.py, initialize_db). -/
structure UserRow where
  id : Nat
  username : String
  password_hash : String
  email : Option String
  created_at : Nat
  subscription_active : Bool
  subscription_expires : Option Nat
  is_admin : Bool
deriving DecidableEq

/-- Row of the invite_links table (database.py, initialize_db). -/
structure InviteRow where
  id : Nat
  token : String
  email : Option String
  created_by : Nat
  created_at : Nat
  expires_at : Nat
  used : Bool
  used_by : Option Nat
  used_at : Option Nat
deriving DecidableEq

/-- Row of the quizzes table (database.py, initialize_db). -/
structure QuizRow where
  id : Nat
  title : String
  source_material : String
  created_at : Nat
  created_by : Option Nat
deriving DecidableEq

/-- Row of the questions table (database.py, initialize_db).  The options
column is a TEXT column holding a JSON string chosen by the caller; the
store never parses it, so it is embedded verbatim as Option String. -/
structure QuestionRow where
  id : Nat
  quiz_id : Nat
  question_text : String
  question_type : String
  correct_answer : String
  options : Option String
deriving DecidableEq

/-- Row of the quiz_attempts table (database.py, initialize_db). -/
structure AttemptRow where
  id : Nat
  quiz_id : Nat
  user_id : Nat
  started_at : Nat
  completed_at : Option Nat
  score : Option Int
  max_score : Option Int
deriving DecidableEq

/-- The database state: the five embedded tables in insertion order plus
their AUTOINCREMENT counters. -/
structure DB where
  users : List UserRow
  invite_links : List InviteRow
  quizzes : List QuizRow
  questions : List QuestionRow
  quiz_attempts : List AttemptRow
  next_user_id : Nat
  next_invite_id : Nat
  next_quiz_id : Nat
  next_question_id : Nat
  next_attempt_id : Nat
deriving DecidableEq

/-- The state right after initialize_db on a fresh file: empty tables,
AUTOINCREMENT counters at 1. -/
def emptyDB : DB :=
  ⟨[], [], [], [], [], 1, 1, 1, 1, 1⟩

/-- Database.add_user.  The INSERT hits the UNIQUE constraints on
username and email; sqlite3.IntegrityError is caught and mapped to the
sentinel -1, so -1 is precisely the duplicate-key signal (any other
storage fault would propagate as an exception, not as -1).  SQLite
UNIQUE columns admit any number of NULLs, so only a non-null email can
collide. -/
def add_user (s : DB) (now : Nat) (username password_hash : String)
    (email : Option String) (is_admin : Bool) : Int × DB :=
  if s.users.any (fun u => u.username = username ∨ (email ≠ none ∧ u.email = email)) then
    (-1, s)
  else
    ((s.next_user_id : Int),
     { s with
        users := s.users ++
          [⟨s.next_user_id, username, password_hash, email, now, false, none, is_admin⟩],
        next_user_id := s.next_user_id + 1 })

/-- Database.create_invite_link.  expires_at = now + timedelta(days =
expires_in_days); the clock is carried in seconds, so a day is 86400.
The token argument stands for the secrets.token_urlsafe(32) draw. -/
def create_invite_link (s : DB) (now : Nat) (created_by : Nat)
    (email : Option String) (expires_in_days : Nat) (token : String) :
    (Nat × String) × DB :=
  ((s.next_invite_id, token),
   { s with
      invite_links := s.invite_links ++
        [⟨s.next_invite_id, token, email, created_by, now,
          now + expires_in_days * 86400, false, none, none⟩],
      next_invite_id := s.next_invite_id + 1 })

/-- The SELECT statement of Database.use_invite_link: the first row with
this token that still has used = 0. -/
def redeem_read (s : DB) (token : String) : Option InviteRow :=
  s.invite_links.find? (fun i => decide (i.token = token ∧ i.used = false))

/-- The UPDATE statement of Database.use_invite_link: set used = 1,
used_by and used_at on the row with this id.  Note the WHERE clause of
the source filters on id only — it does not re-check used = 0. -/
def redeem_write (s : DB) (now : Nat) (invite_id : Nat) (user_id : Nat) : DB :=
  { s with
     invite_links := s.invite_links.map (fun i =>
       if i.id = invite_id then
         { i with used := true, used_by := some user_id, used_at := some now }
       else i) }

/-- The tail of Database.use_invite_link after its SELECT returned
read_result: the expiry comparison (a local computation) followed by the
UPDATE.  Factored out so that an interleaving of two callers, whose
SELECTs and UPDATEs are separate autocommitted statements, can be
expressed. -/
def use_invite_link_session (s : DB) (now : Nat) (read_result : Option InviteRow)
    (user_id : Nat) : Bool × DB :=
  match read_result with
  | none => (false, s)
  | some invite =>
    if invite.expires_at < now then (false, s)
    else (true, redeem_write s now invite.id user_id)

/-- Database.use_invite_link, run in isolation: SELECT, expiry check,
UPDATE, return True unless the SELECT missed or the link was expired. -/
def use_invite_link (s : DB) (now : Nat) (token : String) (user_id : Nat) : Bool × DB :=
  use_invite_link_session s now (redeem_read s token) user_id

/-- Two concurrent calls of Database.use_invite_link on the same token,
under the schedule in which caller B issues its SELECT before caller A
commits its UPDATE.  The source runs its SELECT and UPDATE as two
separate statements on a shared connection with no transaction bracketing
them, so this interleaving is permitted.  Returns the two result values
and the final state. -/
def interleaved_redeem (s : DB) (now : Nat) (token : String) (uA uB : Nat) :
    (Bool × Bool) × DB :=
  let rA := redeem_read s token
  let rB := redeem_read s token
  let outA := use_invite_link_session s now rA uA
  let outB := use_invite_link_session outA.2 now rB uB
  ((outA.1, outB.1), outB.2)

/-- Database.get_active_invites_by_creator: unused, unexpired links of
one creator.  The source orders by created_at DESC; the ordering is not
used by any property below, so the filter is kept in table order. -/
def get_active_invites_by_creator (s : DB) (now : Nat) (creator_id : Nat) :
    List InviteRow :=
  s.invite_links.filter (fun i =>
    decide (i.created_by = creator_id ∧ i.used = false ∧ now < i.expires_at))

/-- Database.delete_invite_link: DELETE FROM invite_links WHERE id = ?,
returning rowcount > 0.  The Boolean is the existence of a row with that
id, which is exactly rowcount > 0 for this statement. -/
def delete_invite_link (s : DB) (invite_id : Nat) : Bool × DB :=
  (s.invite_links.any (fun i => i.id = invite_id),
   { s with invite_links := s.invite_links.filter (fun i => ¬ i.id = invite_id) })

/-- Database.create_quiz. -/
def create_quiz (s : DB) (now : Nat) (title source_material : String)
    (created_by : Option Nat) : Nat × DB :=
  (s.next_quiz_id,
   { s with
      quizzes := s.quizzes ++
        [⟨s.next_quiz_id, title, source_material, now, created_by⟩],
      next_quiz_id := s.next_quiz_id + 1 })

/-- Database.add_question.  A plain INSERT: as explained in the header,
the declared FOREIGN KEY on quiz_id is not enforced by the connection the
source opens, so the insert succeeds whether or not the quiz exists. -/
def add_question (s : DB) (quiz_id : Nat) (question_text question_type correct_answer : String)
    (options : Option String) : Nat × DB :=
  (s.next_question_id,
   { s with
      questions := s.questions ++
        [⟨s.next_question_id, quiz_id, question_text, question_type,
          correct_answer, options⟩],
      next_question_id := s.next_question_id + 1 })

/-- Result shape of Database.get_quiz_with_questions: the quiz row plus
its questions list. -/
structure QuizWithQuestions where
  quiz : QuizRow
  questions : List QuestionRow
deriving DecidableEq

/-- Database.get_quiz_with_questions: the quiz row when present, with
SELECT * FROM questions WHERE quiz_id = ? (returned in table order, which
is insertion order as explained in the header). -/
def get_quiz_with_questions (s : DB) (quiz_id : Nat) : Option QuizWithQuestions :=
  match s.quizzes.find? (fun q => decide (q.id = quiz_id)) with
  | none => none
  | some q => some ⟨q, s.questions.filter (fun x => decide (x.quiz_id = quiz_id))⟩

/-- Database.start_quiz_attempt. -/
def start_quiz_attempt (s : DB) (now : Nat) (quiz_id user_id : Nat) : Nat × DB :=
  (s.next_attempt_id,
   { s with
      quiz_attempts := s.quiz_attempts ++
        [⟨s.next_attempt_id, quiz_id, user_id, now, none, none, none⟩],
      next_attempt_id := s.next_attempt_id + 1 })

/-- Database.complete_quiz_attempt: UPDATE quiz_attempts SET completed_at
= CURRENT_TIMESTAMP, score = ?, max_score = ? WHERE id = ?; the source
then returns True unconditionally, without inspecting rowcount. -/
def complete_quiz_attempt (s : DB) (now : Nat) (attempt_id : Nat)
    (score max_score : Int) : Bool × DB :=
  (true,
   { s with
      quiz_attempts := s.quiz_attempts.map (fun a =>
        if a.id = attempt_id then
          { a with completed_at := some now, score := some score,
                   max_score := some max_score }
        else a) })

/-- Row shape produced by the join in Database.get_user_quiz_history. -/
structure HistoryRow where
  attempt_id : Nat
  quiz_title : String
  started_at : Nat
  completed_at : Option Nat
  score : Option Int
  max_score : Option Int
deriving DecidableEq

/-- The projection the SELECT list of get_user_quiz_history applies to a
joined (attempt, quiz) pair. -/
def mkHistoryRow (a : AttemptRow) (q : QuizRow) : HistoryRow :=
  ⟨a.id, q.title, a.started_at, a.completed_at, a.score, a.max_score⟩

/-- The inner join of get_user_quiz_history: every (attempt, quiz) pair
with qa.user_id = ? and qa.quiz_id = q.id; an attempt with no matching
quiz row contributes nothing. -/
def history_join (s : DB) (user_id : Nat) : List HistoryRow :=
  (s.quiz_attempts.filter (fun a => decide (a.user_id = user_id))).flatMap (fun a =>
    (s.quizzes.filter (fun q => decide (q.id = a.quiz_id))).map (mkHistoryRow a))

/-- The comparison realised by ORDER BY qa.started_at DESC: x precedes y
when y started no later than x. -/
def histLE (x y : HistoryRow) : Prop :=
  y.started_at ≤ x.started_at

instance : DecidableRel histLE :=
  fun x y => Nat.decLe y.started_at x.started_at

instance : IsTotal HistoryRow histLE :=
  ⟨fun a b => (Nat.le_total b.started_at a.started_at).imp id id⟩

instance : IsTrans HistoryRow histLE :=
  ⟨fun _ _ _ h1 h2 => Nat.le_trans h2 h1⟩

/-- Database.get_user_quiz_history: the join, ordered by started_at
descending (modelled with insertion sort, a stable comparison sort). -/
def get_user_quiz_history (s : DB) (user_id : Nat) : List HistoryRow :=
  List.insertionSort histLE (history_join s user_id)

/-! ## Concrete states used as inputs below -/

/-- One unused invite link with token "T" expiring at time 100, as left
by a single create_invite_link call on the fresh database. -/
def raceDB : DB :=
  { emptyDB with
     invite_links := [⟨1, "T", none, 1, 0, 100, false, none, none⟩],
     next_invite_id := 2 }

/-- One unused invite link with token "E" that expired at time 10. -/
def expiredDB : DB :=
  { emptyDB with
     invite_links := [⟨1, "E", none, 1, 0, 10, false, none, none⟩],
     next_invite_id := 2 }

/-- One invite link that has already been redeemed (used = 1). -/
def usedInviteDB : DB :=
  { emptyDB with
     invite_links := [⟨1, "U", none, 1, 0, 100, true, some 2, some 40⟩],
     next_invite_id := 2 }

/-- One quiz attempt of user 1, started at time 5, not yet completed. -/
def attemptDB : DB :=
  { emptyDB with
     quiz_attempts := [⟨1, 1, 1, 5, none, none, none⟩],
     next_attempt_id := 2 }

/-! ## Invite redemption under interleaving (exactly-once) -/

/-- C1: the claim requires that of N concurrent redemptions of one token
exactly one returns true, the rest false, with used_by the unique winner,
on the strength of a write-time used = false guard.  The source has no
such guard: its SELECT and UPDATE are separate statements, and the UPDATE
filters on id only.  Under the permitted interleaving in which both
callers run their SELECT before either UPDATE, both calls return true and
used_by records the second writer, not a unique winner. -/
theorem use_invite_link_race_two_successes :
    (interleaved_redeem raceDB 50 "T" 2 3).1 = (true, true) ∧
    (interleaved_redeem raceDB 50 "T" 2 3).2.invite_links.map
      (fun i => (i.used, i.used_by)) = [(true, some 3)] := by
  constructor <;> rfl

/-! ## Foreign keys are not enforced on add_question -/

/-- C5: adding a question for quiz id 999 on a database with no quizzes
at all.  The claim requires the call to fail with ConstraintViolation and
create no row; the source (whose connection never enables SQLite
foreign-key enforcement) inserts the orphan row and returns its id. -/
theorem add_question_orphan_inserted :
    emptyDB.quizzes = [] ∧
    (add_question emptyDB 999 "What is 2+2?" "multiple_choice" "4"
      (some "[\"3\", \"4\", \"5\"]")).1 = 1 ∧
    (add_question emptyDB 999 "What is 2+2?" "multiple_choice" "4"
      (some "[\"3\", \"4\", \"5\"]")).2.questions.map
        (fun r => (r.id, r.quiz_id)) = [(1, 999)] := by
  refine ⟨rfl, rfl, rfl⟩

/-! ## complete_quiz_attempt on an unknown attempt id -/

/-- C9: complete_quiz_attempt returns True for every attempt id — the
source never inspects the UPDATE rowcount — and when no attempt has that
id the call changes nothing: a silent no-op success. -/
theorem complete_quiz_attempt_unknown_noop (s : DB) (now : Nat)
    (attempt_id : Nat) (score max_score : Int) :
    (complete_quiz_attempt s now attempt_id score max_score).1 = true ∧
    ((∀ a ∈ s.quiz_attempts, a.id ≠ attempt_id) →
      complete_quiz_attempt s now attempt_id score max_score = (true, s)) := by
  refine ⟨rfl, fun h => ?_⟩
  have hmap : s.quiz_attempts.map (fun a =>
      if a.id = attempt_id then
        { a with completed_at := some now, score := some score,
                 max_score := some max_score }
      else a) = s.quiz_attempts := by
    rw [List.map_congr_left (fun a ha => if_neg (h a ha))]
    exact List.map_id' s.quiz_attempts
  show (true, { s with quiz_attempts := s.quiz_attempts.map _ }) = (true, s)
  rw [hmap]

/-- Witness for C9: completing the nonexistent attempt 99 on attemptDB
succeeds and leaves the state untouched. -/
theorem complete_quiz_attempt_unknown_noop_witness :
    (complete_quiz_attempt attemptDB 7 99 3 5).1 = true ∧
    complete_quiz_attempt attemptDB 7 99 3 5 = (true, attemptDB) :=
  ⟨(complete_quiz_attempt_unknown_noop attemptDB 7 99 3 5).1,
   (complete_quiz_attempt_unknown_noop attemptDB 7 99 3 5).2 (by decide)⟩

/-! ## delete_invite_link semantics -/

/-- C10: delete_invite_link returns true exactly when a row with the
given id existed (no condition on used or expires_at is consulted — a
used or expired invite is deleted all the same), removes every row with
that id, and keeps every other invite row. -/
theorem delete_invite_link_removes_iff (s : DB) (invite_id : Nat) :
    ((delete_invite_link s invite_id).1 = true ↔
      ∃ r ∈ s.invite_links, r.id = invite_id) ∧
    (∀ r ∈ (delete_invite_link s invite_id).2.invite_links, r.id ≠ invite_id) ∧
    (∀ r ∈ s.invite_links, r.id ≠ invite_id →
      r ∈ (delete_invite_link s invite_id).2.invite_links) := by
  unfold delete_invite_link
  refine ⟨?_, ?_, ?_⟩
  · simp [List.any_eq_true]
  · intro r hr
    simp [List.mem_filter] at hr
    exact hr.2
  · intro r hr hne
    simp [List.mem_filter]
    exact ⟨hr, hne⟩

/-- Witness for C10: deleting invite 1 of usedInviteDB — a link that is
already used — still returns true and removes the row. -/
theorem delete_invite_link_removes_iff_witness :
    ((delete_invite_link usedInviteDB 1).1 = true ↔
      ∃ r ∈ usedInviteDB.invite_links, r.id = 1) ∧
    (∀ r ∈ (delete_invite_link usedInviteDB 1).2.invite_links, r.id ≠ 1) ∧
    (∀ r ∈ usedInviteDB.invite_links, r.id ≠ 1 →
      r ∈ (delete_invite_link usedInviteDB 1).2.invite_links) :=
  delete_invite_link_removes_iff usedInviteDB 1

/-! ## Expired invites are never marked used -/

/-- C3: when the unused invite row holding the presented token has
expires_at strictly before the redemption-time clock, use_invite_link
returns false and the whole state — in particular that row, still with
used = false and (being well formed) used_by and used_at unset — is
untouched.  Token uniqueness (the UNIQUE constraint on the token column)
enters as the injectivity hypothesis. -/
theorem use_invite_link_expired_noop (s : DB) (now : Nat) (token : String)
    (user_id : Nat) (r : InviteRow)
    (hinj : ∀ a ∈ s.invite_links, ∀ b ∈ s.invite_links, a.token = b.token → a = b)
    (hr : r ∈ s.invite_links) (ht : r.token = token) (hu : r.used = false)
    (hexp : r.expires_at < now)
    (hby : r.used_by = none) (hat : r.used_at = none) :
    use_invite_link s now token user_id = (false, s) ∧
    r.used = false ∧ r.used_by = none ∧ r.used_at = none := by
  refine ⟨?_, hu, hby, hat⟩
  unfold use_invite_link
  rcases hfind : redeem_read s token with _ | inv
  · rfl
  · have hp := List.find?_some hfind
    have hmem := List.mem_of_find?_eq_some hfind
    rw [decide_eq_true_eq] at hp
    have : inv = r := hinj inv hmem r hr (hp.1.trans ht.symm)
    subst this
    simp only [use_invite_link_session, if_pos hexp]

/-- Witness for C3: redeeming token "E" of expiredDB at time 50 (its
expires_at is 10) fails and leaves the state unchanged. -/
theorem use_invite_link_expired_noop_witness :
    use_invite_link expiredDB 50 "E" 2 = (false, expiredDB) ∧
    (⟨1, "E", none, 1, 0, 10, false, none, none⟩ : InviteRow).used = false ∧
    (⟨1, "E", none, 1, 0, 10, false, none, none⟩ : InviteRow).used_by = none ∧
    (⟨1, "E", none, 1, 0, 10, false, none, none⟩ : InviteRow).used_at = none :=
  use_invite_link_expired_noop expiredDB 50 "E" 2
    ⟨1, "E", none, 1, 0, 10, false, none, none⟩
    (by decide) (by decide) (by decide) (by decide) (by decide) (by decide) (by decide)

/-! ## Duplicate users are rejected with the duplicate-key signal -/

/-- C4: on a state with no user named u and no user holding the non-null
email e, a first add_user succeeds (returns the fresh nonnegative id,
never an error), and any second add_user reusing the username u or the
email e fails with the duplicate-key signal -1 and changes nothing, so
exactly one user row with that username and exactly one with that email
exist afterwards. -/
theorem add_user_duplicate_unique (s : DB) (now : Nat) (u p : String)
    (e : String) (adm : Bool) (now2 : Nat) (u2 p2 : String)
    (e2 : Option String) (adm2 : Bool)
    (hu : ∀ x ∈ s.users, x.username ≠ u)
    (he : ∀ x ∈ s.users, x.email ≠ some e)
    (hdup : u2 = u ∨ e2 = some e) :
    (add_user s now u p (some e) adm).1 = (s.next_user_id : Int) ∧
    0 ≤ (add_user s now u p (some e) adm).1 ∧
    add_user (add_user s now u p (some e) adm).2 now2 u2 p2 e2 adm2 =
      (-1, (add_user s now u p (some e) adm).2) ∧
    ((add_user s now u p (some e) adm).2.users.filter
      (fun x => x.username = u)).length = 1 ∧
    ((add_user s now u p (some e) adm).2.users.filter
      (fun x => x.email = some e)).length = 1 := by
  have hnodup : ¬ s.users.any
      (fun x => x.username = u ∨ ((some e : Option String) ≠ none ∧ x.email = some e)) = true := by
    rw [List.any_eq_true]
    rintro ⟨x, hx, hpx⟩
    rw [decide_eq_true_eq] at hpx
    rcases hpx with h1 | h2
    · exact hu x hx h1
    · exact he x hx h2.2
  have h1 : add_user s now u p (some e) adm =
      ((s.next_user_id : Int),
       { s with
          users := s.users ++
            [⟨s.next_user_id, u, p, some e, now, false, none, adm⟩],
          next_user_id := s.next_user_id + 1 }) := by
    unfold add_user
    rw [if_neg hnodup]
  refine ⟨by rw [h1], by rw [h1]; exact Int.ofNat_nonneg _, ?_, ?_, ?_⟩
  · rw [h1]
    unfold add_user
    rw [if_pos ?_]
    rw [List.any_eq_true]
    refine ⟨⟨s.next_user_id, u, p, some e, now, false, none, adm⟩,
      List.mem_append_right _ (List.mem_singleton.mpr rfl), ?_⟩
    rw [decide_eq_true_eq]
    rcases hdup with h | h
    · exact Or.inl h.symm
    · exact Or.inr ⟨by simp [h], by simp [h]⟩
  · rw [h1]
    simp only [List.filter_append]
    rw [List.filter_eq_nil_iff.mpr ?_, List.nil_append]
    · simp
    · intro x hx
      simp only [decide_eq_true_eq]
      exact hu x hx
  · rw [h1]
    simp only [List.filter_append]
    rw [List.filter_eq_nil_iff.mpr ?_, List.nil_append]
    · simp
    · intro x hx
      simp only [decide_eq_true_eq]
      exact he x hx

/-- Witness for C4: adding alice twice (same username) on the fresh
database — the first call returns id 1, the second returns -1 and leaves
exactly one alice row. -/
theorem add_user_duplicate_unique_witness :
    (add_user emptyDB 0 "alice" "h1" (some "alice@example.com") false).1 = (1 : Int) ∧
    0 ≤ (add_user emptyDB 0 "alice" "h1" (some "alice@example.com") false).1 ∧
    add_user (add_user emptyDB 0 "alice" "h1" (some "alice@example.com") false).2
        3 "alice" "h2" none false =
      (-1, (add_user emptyDB 0 "alice" "h1" (some "alice@example.com") false).2) ∧
    ((add_user emptyDB 0 "alice" "h1" (some "alice@example.com") false).2.users.filter
      (fun x => x.username = "alice")).length = 1 ∧
    ((add_user emptyDB 0 "alice" "h1" (some "alice@example.com") false).2.users.filter
      (fun x => x.email = some "alice@example.com")).length = 1 :=
  add_user_duplicate_unique emptyDB 0 "alice" "h1" "alice@example.com" false
    3 "alice" "h2" none false
    (by decide) (by decide) (Or.inl rfl)

/-! ## Attempt completion: fields set together, last write wins -/

/-- C6: for an existing attempt row a, completing it at time now1 with
(sc1, m1) and then again at time now2 with (sc2, m2) returns True both
times and leaves the row carrying exactly the second call's values:
completed_at = now2, score = sc2, max_score = m2, all three set together
and overwritten together. -/
theorem complete_attempt_last_write_wins (s : DB) (a : AttemptRow)
    (now1 now2 : Nat) (sc1 m1 sc2 m2 : Int)
    (ha : a ∈ s.quiz_attempts) :
    (complete_quiz_attempt s now1 a.id sc1 m1).1 = true ∧
    (complete_quiz_attempt (complete_quiz_attempt s now1 a.id sc1 m1).2
      now2 a.id sc2 m2).1 = true ∧
    { a with completed_at := some now2, score := some sc2, max_score := some m2 } ∈
      (complete_quiz_attempt (complete_quiz_attempt s now1 a.id sc1 m1).2
        now2 a.id sc2 m2).2.quiz_attempts := by
  refine ⟨rfl, rfl, ?_⟩
  show _ ∈ (s.quiz_attempts.map _).map _
  rw [List.map_map]
  refine List.mem_map.mpr ⟨a, ha, ?_⟩
  simp

/-- Witness for C6: completing attempt 1 of attemptDB with (3, 5) at
time 10 and then with (4, 5) at time 20 leaves score 4, max_score 5 and
completed_at 20 on the row. -/
theorem complete_attempt_last_write_wins_witness :
    (complete_quiz_attempt attemptDB 10 (1 : Nat) 3 5).1 = true ∧
    (complete_quiz_attempt (complete_quiz_attempt attemptDB 10 (1 : Nat) 3 5).2
      20 (1 : Nat) 4 5).1 = true ∧
    (⟨1, 1, 1, 5, some 20, some 4, some 5⟩ : AttemptRow) ∈
      (complete_quiz_attempt (complete_quiz_attempt attemptDB 10 (1 : Nat) 3 5).2
        20 (1 : Nat) 4 5).2.quiz_attempts :=
  complete_attempt_last_write_wins attemptDB ⟨1, 1, 1, 5, none, none, none⟩
    10 20 3 5 4 5 (by decide)

/-! ## Questions come back in insertion order with options verbatim -/

/-- The caller-visible content of a question row: text, type, correct
answer and the verbatim options string. -/
def questionView (r : QuestionRow) : String × String × String × Option String :=
  (r.question_text, r.question_type, r.correct_answer, r.options)

/-- A sequence of add_question calls on one quiz, in order. -/
def addQuestionList (s : DB) (quiz_id : Nat) :
    List (String × String × String × Option String) → DB
  | [] => s
  | x :: rest =>
      addQuestionList (add_question s quiz_id x.1 x.2.1 x.2.2.1 x.2.2.2).2 quiz_id rest

/-- One add_question call extends the question list returned by
get_quiz_with_questions by exactly the inserted row. -/
theorem get_quiz_with_questions_after_add (s : DB) (quiz_id : Nat)
    (t ty ca : String) (o : Option String) :
    get_quiz_with_questions (add_question s quiz_id t ty ca o).2 quiz_id =
      (get_quiz_with_questions s quiz_id).map (fun z =>
        ⟨z.quiz, z.questions ++ [⟨s.next_question_id, quiz_id, t, ty, ca, o⟩]⟩) := by
  unfold get_quiz_with_questions add_question
  rcases hfind : s.quizzes.find? (fun q => decide (q.id = quiz_id)) with _ | q
  · rw [hfind]
    rfl
  · rw [hfind]
    simp [List.filter_append]

/-- C7: after any sequence L of add_question calls on quiz_id, the
question list that get_quiz_with_questions returns is the previous list
extended, in insertion order, by exactly the inserted tuples — the
question text, type, correct answer and options string come back
verbatim, in the order they were added. -/
theorem get_quiz_with_questions_round_trip (s : DB) (quiz_id : Nat)
    (L : List (String × String × String × Option String)) :
    (get_quiz_with_questions (addQuestionList s quiz_id L) quiz_id).map
      (fun z => z.questions.map questionView) =
    (get_quiz_with_questions s quiz_id).map
      (fun z => z.questions.map questionView ++ L) := by
  induction L generalizing s with
  | nil =>
    show (get_quiz_with_questions s quiz_id).map
      (fun z => z.questions.map questionView) = _
    rcases hg : get_quiz_with_questions s quiz_id with _ | z
    · rfl
    · simp
  | cons x rest ih =>
    show (get_quiz_with_questions
        (addQuestionList (add_question s quiz_id x.1 x.2.1 x.2.2.1 x.2.2.2).2 quiz_id rest)
        quiz_id).map (fun z => z.questions.map questionView) = _
    rw [ih, get_quiz_with_questions_after_add, Option.map_map]
    rcases hg : get_quiz_with_questions s quiz_id with _ | z
    · rfl
    · simp [questionView, Function.comp]

/-! ## User history: newest attempt first, orphan attempts excluded -/

/-- C8: get_user_quiz_history returns a list sorted by started_at
descending (so attempts started at t1 < t2 < t3 come back in order t3,
t2, t1), and its members are exactly the joins of the user's attempts
with a matching quiz row — an attempt whose quiz_id matches no quiz
contributes nothing. -/
theorem get_user_quiz_history_sorted_join (s : DB) (user_id : Nat) :
    (get_user_quiz_history s user_id).Sorted histLE ∧
    ∀ x, x ∈ get_user_quiz_history s user_id ↔
      ∃ a ∈ s.quiz_attempts, ∃ q ∈ s.quizzes,
        a.user_id = user_id ∧ q.id = a.quiz_id ∧ x = mkHistoryRow a q := by
  constructor
  · exact List.sorted_insertionSort histLE (history_join s user_id)
  · intro x
    show x ∈ List.insertionSort histLE (history_join s user_id) ↔ _
    rw [(List.perm_insertionSort histLE (history_join s user_id)).mem_iff]
    unfold history_join
    constructor
    · intro hx
      obtain ⟨a, haf, hx2⟩ := List.mem_flatMap.mp hx
      obtain ⟨ha, hau⟩ := List.mem_filter.mp haf
      obtain ⟨q, hqf, hmk⟩ := List.mem_map.mp hx2
      obtain ⟨hq, hqid⟩ := List.mem_filter.mp hqf
      exact ⟨a, ha, q, hq, of_decide_eq_true hau, of_decide_eq_true hqid, hmk.symm⟩
    · rintro ⟨a, ha, q, hq, hau, hqid, rfl⟩
      refine List.mem_flatMap.mpr ⟨a, List.mem_filter.mpr ⟨ha, decide_eq_true hau⟩, ?_⟩
      exact List.mem_map.mpr ⟨q, List.mem_filter.mpr ⟨hq, decide_eq_true hqid⟩, rfl⟩

/-! ## The invite-ledger invariant: used transitions once, fields frozen -/

/-- Per-row shape of the used flag: used_by and used_at are populated
exactly when used is set (they are written together by the one UPDATE
that sets used, and a fresh link carries NULL in both). -/
def inviteRowWF (r : InviteRow) : Prop :=
  (r.used = true → r.used_by.isSome ∧ r.used_at.isSome) ∧
  (r.used = false → r.used_by = none ∧ r.used_at = none)

instance (r : InviteRow) : Decidable (inviteRowWF r) :=
  inferInstanceAs (Decidable (And _ _))

/-- State-level invariant of the invite table: ids are pairwise distinct
and below the AUTOINCREMENT counter (as SQLite maintains for an
AUTOINCREMENT primary key), and every row is well formed. -/
def inviteStateWF (s : DB) : Prop :=
  (s.invite_links.map (fun r => r.id)).Nodup ∧
  (∀ r ∈ s.invite_links, r.id < s.next_invite_id) ∧
  (∀ r ∈ s.invite_links, inviteRowWF r)

instance (s : DB) : Decidable (inviteStateWF s) :=
  inferInstanceAs (Decidable (And _ _))

/-- The repository calls of the invite ledger, with their clock values
and (for create) the externally drawn token. -/
inductive InviteOp where
  | create (now created_by : Nat) (email : Option String)
      (expires_in_days : Nat) (token : String)
  | redeem (now : Nat) (token : String) (user_id : Nat)
  | listActive (now creator_id : Nat)
  | delete (invite_id : Nat)

/-- State effect of one invite-ledger call.  listActive is a pure query
and leaves the state unchanged. -/
def applyInviteOp (s : DB) : InviteOp → DB
  | .create now created_by email days token =>
      (create_invite_link s now created_by email days token).2
  | .redeem now token user_id => (use_invite_link s now token user_id).2
  | .listActive _ _ => s
  | .delete invite_id => (delete_invite_link s invite_id).2

/-- A whole sequence of invite-ledger calls. -/
def applyInviteOps (s : DB) (ops : List InviteOp) : DB :=
  ops.foldl applyInviteOp s

/-- Rows with distinct positions have distinct ids, so equal ids force
equal rows. -/
theorem invite_id_inj {s : DB} (h : inviteStateWF s) {a b : InviteRow}
    (ha : a ∈ s.invite_links) (hb : b ∈ s.invite_links) (hab : a.id = b.id) :
    a = b :=
  List.inj_on_of_nodup_map h.1 ha hb hab

/-- The UPDATE of use_invite_link preserves every row id. -/
theorem redeem_write_id (invite_id user_id now : Nat) (x : InviteRow) :
    ((fun i : InviteRow =>
      if i.id = invite_id then
        { i with used := true, used_by := some user_id, used_at := some now }
      else i) x).id = x.id := by
  by_cases h : x.id = invite_id <;> simp [h]

/-- The id column of the invite table is untouched by the UPDATE. -/
theorem redeem_write_ids (s : DB) (now invite_id user_id : Nat) :
    (redeem_write s now invite_id user_id).invite_links.map (fun r => r.id) =
      s.invite_links.map (fun r => r.id) := by
  unfold redeem_write
  rw [List.map_map]
  exact List.map_congr_left (fun x _ => redeem_write_id invite_id user_id now x)

/-- A used row is never the row the SELECT of use_invite_link finds,
since the SELECT filters on used = 0. -/
theorem used_row_ne_found {s : DB} (h : inviteStateWF s) {tok : String}
    {inv r : InviteRow} (hfind : redeem_read s tok = some inv)
    (hr : r ∈ s.invite_links) (hu : r.used = true) : r.id ≠ inv.id := by
  intro hid
  have hp := List.find?_some hfind
  have hmem := List.mem_of_find?_eq_some hfind
  rw [decide_eq_true_eq] at hp
  have : r = inv := invite_id_inj h hr hmem hid
  rw [this, hp.2] at hu
  cases hu

/-- create_invite_link preserves the state invariant. -/
theorem create_invite_link_WF (s : DB) (now created_by : Nat)
    (email : Option String) (days : Nat) (token : String)
    (h : inviteStateWF s) :
    inviteStateWF (create_invite_link s now created_by email days token).2 := by
  obtain ⟨hnd, hlt, hwf⟩ := h
  unfold create_invite_link
  refine ⟨?_, ?_, ?_⟩
  · rw [List.map_append]
    show (s.invite_links.map (fun r => r.id) ++ [s.next_invite_id]).Nodup
    rw [List.nodup_append]
    refine ⟨hnd, List.nodup_singleton _, ?_⟩
    intro a ha hb
    rw [List.mem_singleton] at hb
    obtain ⟨r, hr, hrid⟩ := List.mem_map.mp ha
    have := hlt r hr
    rw [hrid, hb] at this
    exact absurd this (Nat.lt_irrefl _)
  · intro r hr
    rcases List.mem_append.mp hr with hr | hr
    · exact Nat.lt_trans (hlt r hr) (Nat.lt_succ_self _)
    · rw [List.mem_singleton] at hr
      rw [hr]
      exact Nat.lt_succ_self _
  · intro r hr
    rcases List.mem_append.mp hr with hr | hr
    · exact hwf r hr
    · rw [List.mem_singleton] at hr
      rw [hr]
      exact ⟨fun hc => Bool.noConfusion hc, fun _ => ⟨rfl, rfl⟩⟩

/-- The UPDATE of use_invite_link preserves the state invariant. -/
theorem redeem_write_WF (s : DB) (now invite_id user_id : Nat)
    (h : inviteStateWF s) :
    inviteStateWF (redeem_write s now invite_id user_id) := by
  obtain ⟨hnd, hlt, hwf⟩ := h
  refine ⟨?_, ?_, ?_⟩
  · rw [redeem_write_ids]
    exact hnd
  · intro r hr
    obtain ⟨x, hx, hxr⟩ := List.mem_map.mp hr
    have hid : r.id = x.id := by rw [← hxr]; exact redeem_write_id _ _ _ x
    rw [hid]
    exact hlt x hx
  · intro r hr
    obtain ⟨x, hx, hxr⟩ := List.mem_map.mp hr
    by_cases hc : x.id = invite_id
    · rw [if_pos hc] at hxr
      rw [← hxr]
      exact ⟨fun _ => ⟨rfl, rfl⟩, fun hc2 => Bool.noConfusion hc2⟩
    · rw [if_neg hc] at hxr
      rw [← hxr]
      exact hwf x hx

/-- use_invite_link preserves the state invariant. -/
theorem use_invite_link_WF (s : DB) (now : Nat) (token : String)
    (user_id : Nat) (h : inviteStateWF s) :
    inviteStateWF (use_invite_link s now token user_id).2 := by
  unfold use_invite_link use_invite_link_session
  rcases hfind : redeem_read s token with _ | inv
  · exact h
  · show inviteStateWF
      (if inv.expires_at < now then (false, s)
       else (true, redeem_write s now inv.id user_id)).2
    by_cases hex : inv.expires_at < now
    · rw [if_pos hex]
      exact h
    · rw [if_neg hex]
      exact redeem_write_WF s now inv.id user_id h

/-- delete_invite_link preserves the state invariant. -/
theorem delete_invite_link_WF (s : DB) (invite_id : Nat)
    (h : inviteStateWF s) :
    inviteStateWF (delete_invite_link s invite_id).2 := by
  obtain ⟨hnd, hlt, hwf⟩ := h
  refine ⟨?_, ?_, ?_⟩
  · exact List.Nodup.sublist (List.Sublist.map _ (List.filter_sublist _)) hnd
  · intro r hr
    exact hlt r (List.mem_of_mem_filter hr)
  · intro r hr
    exact hwf r (List.mem_of_mem_filter hr)

/-- Every single invite-ledger call preserves the state invariant. -/
theorem applyInviteOp_WF (s : DB) (op : InviteOp) (h : inviteStateWF s) :
    inviteStateWF (applyInviteOp s op) := by
  cases op with
  | create now created_by email days token =>
      exact create_invite_link_WF s now created_by email days token h
  | redeem now token user_id => exact use_invite_link_WF s now token user_id h
  | listActive now creator_id => exact h
  | delete invite_id => exact delete_invite_link_WF s invite_id h

/-- After one invite-ledger call, any surviving row carrying the id of a
previously used row is that row, unchanged. -/
theorem applyInviteOp_used_frozen (s : DB) (op : InviteOp)
    (h : inviteStateWF s) (r : InviteRow) (hr : r ∈ s.invite_links)
    (hu : r.used = true) :
    ∀ r2 ∈ (applyInviteOp s op).invite_links, r2.id = r.id → r2 = r := by
  intro r2 hr2 hid
  cases op with
  | create now created_by email days token =>
      rcases List.mem_append.mp hr2 with hin | hin
      · exact invite_id_inj h hin hr hid
      · rw [List.mem_singleton] at hin
        have hlt := h.2.1 r hr
        rw [← hid, hin] at hlt
        exact absurd hlt (Nat.lt_irrefl _)
  | redeem now token user_id =>
      revert hr2
      show r2 ∈ (use_invite_link s now token user_id).2.invite_links → r2 = r
      unfold use_invite_link use_invite_link_session
      rcases hfind : redeem_read s token with _ | inv
      · intro hr2
        exact invite_id_inj h hr2 hr hid
      · show r2 ∈ (if inv.expires_at < now then (false, s)
            else (true, redeem_write s now inv.id user_id)).2.invite_links → r2 = r
        by_cases hex : inv.expires_at < now
        · rw [if_pos hex]
          intro hr2
          exact invite_id_inj h hr2 hr hid
        · rw [if_neg hex]
          intro hr2
          obtain ⟨x, hx, hxr⟩ := List.mem_map.mp hr2
          have hxid : x.id = r.id := by
            rw [← hid, ← hxr]
            exact (redeem_write_id inv.id user_id now x).symm
          have hxr2 : x = r := invite_id_inj h hx hr hxid
          subst hxr2
          rw [if_neg (used_row_ne_found h hfind hr hu)] at hxr
          exact hxr.symm
  | listActive now creator_id => exact invite_id_inj h hr2 hr hid
  | delete invite_id =>
      exact invite_id_inj h (List.mem_of_mem_filter hr2) hr hid

/-- After one invite-ledger call, a used row either survives verbatim or
no row with its id remains. -/
theorem applyInviteOp_mem_or_dead (s : DB) (op : InviteOp)
    (h : inviteStateWF s) (r : InviteRow) (hr : r ∈ s.invite_links)
    (hu : r.used = true) :
    r ∈ (applyInviteOp s op).invite_links ∨
    ∀ r2 ∈ (applyInviteOp s op).invite_links, r2.id ≠ r.id := by
  cases op with
  | create now created_by email days token =>
      exact Or.inl (List.mem_append_left _ hr)
  | redeem now token user_id =>
      left
      show r ∈ (use_invite_link s now token user_id).2.invite_links
      unfold use_invite_link use_invite_link_session
      rcases hfind : redeem_read s token with _ | inv
      · exact hr
      · show r ∈ (if inv.expires_at < now then (false, s)
            else (true, redeem_write s now inv.id user_id)).2.invite_links
        by_cases hex : inv.expires_at < now
        · rw [if_pos hex]
          exact hr
        · rw [if_neg hex]
          have hmem := List.mem_map_of_mem (fun i : InviteRow =>
            if i.id = inv.id then
              { i with used := true, used_by := some user_id, used_at := some now }
            else i) hr
          have h2 : (if r.id = inv.id then
              { r with used := true, used_by := some user_id, used_at := some now }
            else r) ∈ (redeem_write s now inv.id user_id).invite_links := hmem
          rw [if_neg (used_row_ne_found h hfind hr hu)] at h2
          exact h2
  | listActive now creator_id => exact Or.inl hr
  | delete invite_id =>
      by_cases hdel : r.id = invite_id
      · right
        intro r2 hr2
        have := (List.mem_filter.mp hr2).2
        rw [decide_eq_true_eq] at this
        rw [hdel]
        exact this
      · left
        exact List.mem_filter.mpr ⟨hr, decide_eq_true hdel⟩

/-- The invite AUTOINCREMENT counter never decreases. -/
theorem applyInviteOp_next_mono (s : DB) (op : InviteOp) :
    s.next_invite_id ≤ (applyInviteOp s op).next_invite_id := by
  cases op with
  | create now created_by email days token => exact Nat.le_succ _
  | redeem now token user_id =>
      show s.next_invite_id ≤ (use_invite_link s now token user_id).2.next_invite_id
      unfold use_invite_link use_invite_link_session
      rcases redeem_read s token with _ | inv
      · exact Nat.le_refl _
      · show s.next_invite_id ≤ (if inv.expires_at < now then (false, s)
            else (true, redeem_write s now inv.id user_id)).2.next_invite_id
        by_cases hex : inv.expires_at < now
        · rw [if_pos hex]
        · rw [if_neg hex]
          exact Nat.le_refl _
  | listActive now creator_id => exact Nat.le_refl _
  | delete invite_id => exact Nat.le_refl _

/-- One invite-ledger call never resurrects an id that is absent and
below the counter: it stays absent and below the counter. -/
theorem applyInviteOp_dead (s : DB) (op : InviteOp) (i : Nat)
    (hlt : i < s.next_invite_id)
    (hdead : ∀ r2 ∈ s.invite_links, r2.id ≠ i) :
    i < (applyInviteOp s op).next_invite_id ∧
    ∀ r2 ∈ (applyInviteOp s op).invite_links, r2.id ≠ i := by
  cases op with
  | create now created_by email days token =>
      refine ⟨Nat.lt_trans hlt (Nat.lt_succ_self _), ?_⟩
      intro r2 hr2
      rcases List.mem_append.mp hr2 with hin | hin
      · exact hdead r2 hin
      · rw [List.mem_singleton] at hin
        rw [hin]
        exact fun hc => absurd (hc ▸ hlt) (Nat.lt_irrefl _)
  | redeem now token user_id =>
      constructor
      · show i < (use_invite_link s now token user_id).2.next_invite_id
        unfold use_invite_link use_invite_link_session
        rcases redeem_read s token with _ | inv
        · exact hlt
        · show i < (if inv.expires_at < now then (false, s)
              else (true, redeem_write s now inv.id user_id)).2.next_invite_id
          by_cases hex : inv.expires_at < now
          · rw [if_pos hex]; exact hlt
          · rw [if_neg hex]; exact hlt
      · show ∀ r2 ∈ (use_invite_link s now token user_id).2.invite_links, r2.id ≠ i
        unfold use_invite_link use_invite_link_session
        rcases redeem_read s token with _ | inv
        · exact hdead
        · show ∀ r2 ∈ (if inv.expires_at < now then (false, s)
              else (true, redeem_write s now inv.id user_id)).2.invite_links, r2.id ≠ i
          by_cases hex : inv.expires_at < now
          · rw [if_pos hex]; exact hdead
          · rw [if_neg hex]
            intro r2 hr2
            obtain ⟨x, hx, hxr⟩ := List.mem_map.mp hr2
            have : r2.id = x.id := by
              rw [← hxr]; exact redeem_write_id inv.id user_id now x
            rw [this]
            exact hdead x hx
  | listActive now creator_id => exact ⟨hlt, hdead⟩
  | delete invite_id =>
      exact ⟨hlt, fun r2 hr2 => hdead r2 (List.mem_of_mem_filter hr2)⟩

/-- An id that is absent and below the counter stays absent through any
sequence of invite-ledger calls. -/
theorem applyInviteOps_dead (ops : List InviteOp) (s : DB) (i : Nat)
    (hlt : i < s.next_invite_id)
    (hdead : ∀ r2 ∈ s.invite_links, r2.id ≠ i) :
    i < (applyInviteOps s ops).next_invite_id ∧
    ∀ r2 ∈ (applyInviteOps s ops).invite_links, r2.id ≠ i := by
  induction ops generalizing s with
  | nil => exact ⟨hlt, hdead⟩
  | cons op ops ih =>
      obtain ⟨h1, h2⟩ := applyInviteOp_dead s op i hlt hdead
      exact ih (applyInviteOp s op) h1 h2

/-- C2: across every sequence of invite-ledger calls (createInvite,
redeemInvite, listActiveInvites, deleteInvite) from a well-formed state,
the state stays well formed — in particular used_by and used_at are
populated exactly on used rows, so the redeeming UPDATE sets used,
used_by and used_at together — and every row that is used = true is
frozen: any row carrying its id after the sequence is that row with the
same used, used_by and used_at, so a row transitions used = false to
used = true at most once and its redemption fields are never cleared or
changed afterwards. -/
theorem invite_used_at_most_once (ops : List InviteOp) (s : DB)
    (h : inviteStateWF s) :
    inviteStateWF (applyInviteOps s ops) ∧
    ∀ r ∈ s.invite_links, r.used = true →
      ∀ r2 ∈ (applyInviteOps s ops).invite_links, r2.id = r.id → r2 = r := by
  induction ops generalizing s with
  | nil =>
      exact ⟨h, fun r hr _ r2 hr2 hid => invite_id_inj h hr2 hr hid⟩
  | cons op ops ih =>
      have h1 := applyInviteOp_WF s op h
      obtain ⟨hWF, hfro⟩ := ih (applyInviteOp s op) h1
      refine ⟨hWF, ?_⟩
      intro r hr hu r2 hr2 hid
      rcases applyInviteOp_mem_or_dead s op h r hr hu with hin | hgone
      · exact hfro r hin hu r2 hr2 hid
      · have hlt : r.id < s.next_invite_id := h.2.1 r hr
        have hlt1 : r.id < (applyInviteOp s op).next_invite_id :=
          Nat.lt_of_lt_of_le hlt (applyInviteOp_next_mono s op)
        have hgone2 := applyInviteOps_dead ops (applyInviteOp s op) r.id hlt1 hgone
        exact absurd hid (hgone2.2 r2 hr2)

/-- Concrete sequence of ledger calls used by the C2 witness: create a
link, redeem it, list the creator's active links. -/
def sampleInviteOps : List InviteOp :=
  [InviteOp.create 20 1 none 7 "W", InviteOp.redeem 25 "W" 3,
   InviteOp.listActive 30 1, InviteOp.delete 5]

/-- Witness for C2: running sampleInviteOps on usedInviteDB (which holds
one already-used link) keeps the state well formed and leaves every
already-used row frozen. -/
theorem invite_used_at_most_once_witness :
    inviteStateWF usedInviteDB ∧
    (inviteStateWF (applyInviteOps usedInviteDB sampleInviteOps) ∧
     ∀ r ∈ usedInviteDB.invite_links, r.used = true →
       ∀ r2 ∈ (applyInviteOps usedInviteDB sampleInviteOps).invite_links,
         r2.id = r.id → r2 = r) :=
  ⟨by decide, invite_used_at_most_once sampleInviteOps usedInviteDB (by decide)⟩
